import Mathlib

/-
Verification of the variety / rational-map algebra of `sff.py`
(Hodge-special fourfolds).

The Python code works with homogeneous polynomial ideals through a symbolic
backend (Sage/Singular ideal arithmetic, plus a remote Macaulay2 bridge).
We embed the code shallowly: the control flow, state updates and boolean
logic of each method are translated directly from the source, while the
backend operations (ideal membership, ideal intersection, saturation,
minimal bases, scheme dimension and degree, random draws, point sampling,
and the Macaulay2 bridge) are fields of an explicit `Backend` structure or
oracle parameters.  Theorems are stated over an arbitrary backend, with the
mathematical facts about ideals the code relies on taken as explicit
hypotheses; a small executable model backend (principal ideals of ℤ, where
ideal arithmetic is gcd/lcm arithmetic) instantiates everything for
concrete evaluations.
-/

set_option maxHeartbeats 1000000

namespace SFF

/-- Exceptions raised by the Python code, one constructor per distinct
`raise` site relevant to the claims. -/
inductive Err where
  /-- "expected varieties in the same ambient projective space" -/
  | expectedSameAmbient
  /-- "expected a tuple of positive integers" (`random`) -/
  | expectedPositiveIntegers
  /-- "no hypersurface contains the ambient space" (`random`) -/
  | noHypersurface
  /-- "too many degrees are given" (`random`) -/
  | tooManyDegrees
  /-- "unable to construct complete intersection containing the variety" (`random`) -/
  | unableCompleteIntersection
  /-- "the rational map is not birational" (`inverse`) -/
  | notBirational
  /-- an exception propagated from the Macaulay2 bridge (`inverse`) -/
  | bridgeError
  /-- a failing `assert` statement -/
  | assertFailed
  /-- "expected a positive-dimensional scheme" (`_raw_point`) -/
  | expectedPositiveDimensional
  /-- "function _raw_point() failed: reached maximum number of 10 attempts
  to find rational point" -/
  | rawPointMaxAttempts
  /-- "function congruence failed" (`congruence`) -/
  | congruenceFailed
  /-- "function congruence failed (with previous runs)" (`congruence`) -/
  | congruenceFailedPrevious
  /-- "congruence check failed" (`congruence`) -/
  | congruenceCheckFailed
  /-- recursion bound of the embedding exhausted (models a run of
  `function_congruence` that keeps resampling points forever) -/
  | fuelExhausted
  deriving DecidableEq

/-- The polynomial/ideal backend consumed by the Python classes
(Sage ideal arithmetic; see spec section 6).  `P` is the type of
polynomials, `R` identifies a coordinate ring (one per ambient projective
space).  An ideal is represented, as in the code, by its list of
generators. -/
structure Backend (P R : Type) where
  /-- ideal membership test `g in I` (delegated to the backend) -/
  mem : R → List P → P → Bool
  /-- ideal-theoretic intersection `I.intersection(J)` -/
  interIdeal : R → List P → List P → List P
  /-- saturation `I.saturation(J)[0]` -/
  satIdeal : R → List P → List P → List P
  /-- minimal generating set `_minbase(I)` -/
  minbase : R → List P → List P
  /-- the irrelevant ideal `I.ring().irrelevant_ideal()` of a coordinate ring -/
  irrelevantIdeal : R → List P
  /-- the unit `coordinate_ring().one()` of a coordinate ring -/
  one : R → P
  /-- dimension of the projective scheme cut out by an ideal
  (`AlgebraicScheme_subscheme_projective.dimension`, before the clamp
  applied by `Embedded_projective_variety.dimension`) -/
  dimIdeal : R → List P → Int
  /-- dimension of the ambient projective space `ambient_space().dimension()` -/
  ambientDim : R → Nat
  /-- degree of the projective scheme cut out by an ideal -/
  degIdeal : R → List P → Int
  /-- substitution of one polynomial tuple into another (used by `compose`,
  which delegates the actual substitution to Sage via `f * self`) -/
  subst : List P → List P → List P

/-- `Embedded_projective_variety`: an ambient coordinate ring together with
the stored tuple of defining polynomials. -/
structure Variety (P R : Type) where
  ring : R
  gens : List P
  deriving DecidableEq

variable {P R : Type}

/-- `dimension()`: the scheme dimension clamped from below at -1
(`max(super().dimension(), -1)`). -/
def Variety.dimension [DecidableEq P] [DecidableEq R] (B : Backend P R)
    (X : Variety P R) : Int :=
  max (B.dimIdeal X.ring X.gens) (-1)

/-- `codimension()`: `ambient_space().dimension() - self.dimension()`. -/
def Variety.codimension [DecidableEq P] [DecidableEq R] (B : Backend P R)
    (X : Variety P R) : Int :=
  (B.ambientDim X.ring : Int) - X.dimension B

/-- `degree()`: delegated to the backend (Hilbert polynomial). -/
def Variety.degree [DecidableEq P] [DecidableEq R] (B : Backend P R)
    (X : Variety P R) : Int :=
  B.degIdeal X.ring X.gens

/-- `ambient()`: the variety itself when it has codimension 0, otherwise
the ambient projective space (no defining polynomials). -/
def Variety.ambientV [DecidableEq P] [DecidableEq R] (B : Backend P R)
    (X : Variety P R) : Variety P R :=
  if X.codimension B = 0 then X else ⟨X.ring, []⟩

/-- `empty()`: the subscheme cut out by the unit of the coordinate ring. -/
def Variety.emptyV [DecidableEq P] [DecidableEq R] (B : Backend P R)
    (X : Variety P R) : Variety P R :=
  ⟨X.ring, [B.one X.ring]⟩

/-- `is_subset(Y)`: identity shortcut (`self is Y`, modelled by structural
equality), then ring comparison, then a backend ideal-membership test of
every generator of `Y` against the ideal of `self`. -/
def Variety.is_subset [DecidableEq P] [DecidableEq R] (B : Backend P R)
    (X Y : Variety P R) : Bool :=
  if X = Y then true
  else if X.ring ≠ Y.ring then false
  else Y.gens.all fun g => B.mem X.ring X.gens g

/-- `__eq__`: mutual ideal containment, `is_subset` in both directions. -/
def Variety.eqV [DecidableEq P] [DecidableEq R] (B : Backend P R)
    (X Y : Variety P R) : Bool :=
  X.is_subset B Y && Y.is_subset B X

/-- `intersection(other)`: requires equal ambient spaces; the sum of the
ideals is saturated by the irrelevant ideal and minimally regenerated. -/
def Variety.intersectionV [DecidableEq P] [DecidableEq R] (B : Backend P R)
    (X Y : Variety P R) : Except Err (Variety P R) :=
  if (X.ambientV B).eqV B (Y.ambientV B) = false then
    .error .expectedSameAmbient
  else
    let I := X.gens ++ Y.gens
    let Isat := B.satIdeal X.ring I (B.irrelevantIdeal X.ring)
    .ok ⟨X.ring, B.minbase X.ring Isat⟩

/-- `union(other)`: requires equal ambient spaces; the ideal-theoretic
intersection of the two ideals is minimally regenerated. -/
def Variety.unionV [DecidableEq P] [DecidableEq R] (B : Backend P R)
    (X Y : Variety P R) : Except Err (Variety P R) :=
  if (X.ambientV B).eqV B (Y.ambientV B) = false then
    .error .expectedSameAmbient
  else
    .ok ⟨X.ring, B.minbase X.ring (B.interIdeal X.ring X.gens Y.gens)⟩

/-- `random(*args)`: a random complete intersection of the given type
containing the variety.  `combo d k` is the `k`-th random linear
combination the code draws from the degree-`d` homogeneous component of
the defining ideal (`sum(K.random_element() * g for g in B)`). -/
def Variety.random [DecidableEq P] [DecidableEq R] (B : Backend P R)
    (X : Variety P R) (args : List Int) (combo : Int → Nat → P) :
    Except Err (Variety P R) :=
  if args = [] then .ok (X.ambientV B)
  else if ¬ args.all (fun i => 0 < i) then .error .expectedPositiveIntegers
  else if X.codimension B = 0 then .error .noHypersurface
  else if (args.length : Int) > X.codimension B then .error .tooManyDegrees
  else
    let L := args.dedup.flatMap fun d =>
      (List.range (args.count d)).map fun k => combo d k
    let Xci : Variety P R := ⟨X.ring, L⟩
    if Xci.codimension B ≠ (args.length : Int) then
      .error .unableCompleteIntersection
    else .ok Xci

/-- `_raw_point()`, translated from the source.  The recursive call for
dimension `> 1` and the projection trick for codimension `> 1` are
supplied as oracle results (`bigdim`, `highcodim`); `attempts i` is the
outcome of the `i`-th iteration of the final loop: the first point found
among the irreducible components of a fresh random hyperplane section,
pushed forward along the stored embedding, or `none` if that section has
no such point.  (The `codimension() == 0` branch of the source computes a
random complete intersection and discards it, so it is a no-op here.) -/
def Variety.raw_point [DecidableEq P] [DecidableEq R] (B : Backend P R)
    (X : Variety P R) (bigdim highcodim : Except Err (Variety P R))
    (attempts : Nat → Option (Variety P R)) : Except Err (Variety P R) :=
  if X.dimension B ≤ 0 then .error .expectedPositiveDimensional
  else if X.dimension B > 1 then bigdim
  else if X.codimension B > 1 then highcodim
  else
    match (List.range 10).findSome? attempts with
    | some p => .ok p
    | none => .error .rawPointMaxAttempts

/-- The data of a `Rational_map_between_embedded_projective_varieties`
except for the cached inverse: source, target, defining polynomials, and
the four lazily resolved boolean flags (`None` = unknown). -/
structure RatMapCore (P R : Type) where
  source : Variety P R
  target : Variety P R
  polys : List P
  isIso : Option Bool
  isBir : Option Bool
  isDom : Option Bool
  isMor : Option Bool
  deriving DecidableEq

/-- A rational map together with its cached inverse (the attribute
`_inverse_rational_map`, stored as the inverse map's core data). -/
structure RatMap (P R : Type) extends RatMapCore P R where
  invMap : Option (RatMapCore P R)
  deriving DecidableEq

/-- Flag initialization of `Rational_map_between_embedded_projective_varieties.__init__`:
all four flags start unknown, except that `_is_dominant` is set to `True`
when the target has negative dimension.  (The input validation of the
constructor — polynomial count and common degree — is not needed by any
claim and is omitted.) -/
def mkRatMapCore [DecidableEq P] [DecidableEq R] (B : Backend P R)
    (X Y : Variety P R) (polys : List P) : RatMapCore P R :=
  { source := X
    target := Y
    polys := polys
    isIso := none
    isBir := none
    isDom := if Y.dimension B < 0 then some true else none
    isMor := none }

/-- A rational map as freshly constructed (no cached inverse). -/
def mkRatMap [DecidableEq P] [DecidableEq R] (B : Backend P R)
    (X Y : Variety P R) (polys : List P) : RatMap P R :=
  { toRatMapCore := mkRatMapCore B X Y polys, invMap := none }

/-- `compose(f)`: builds the formal substitution through the constructor,
then sets each of the four flags to `True` exactly when that flag is
already `True` on both operands, leaving the constructor's value
otherwise. -/
def RatMap.compose [DecidableEq P] [DecidableEq R] (B : Backend P R)
    (f g : RatMap P R) : RatMap P R :=
  let h := mkRatMapCore B f.source g.target (B.subst g.polys f.polys)
  let h :=
    { h with
      isIso := if f.isIso = some true ∧ g.isIso = some true then some true
               else h.isIso
      isBir := if f.isBir = some true ∧ g.isBir = some true then some true
               else h.isBir
      isDom := if f.isDom = some true ∧ g.isDom = some true then some true
               else h.isDom
      isMor := if f.isMor = some true ∧ g.isMor = some true then some true
               else h.isMor }
  { toRatMapCore := h, invMap := none }

/-- `projective_degrees()`: the loop appends, for `i in
range(self.source().dimension())`, the 0th projective degree of the map
restricted `i` times to general hyperplane sections (a probabilistic
quantity, supplied here as the oracle `deg0 i`), then appends
`self.source().degree()`, and finally reverses the list. -/
def RatMap.projective_degrees [DecidableEq P] [DecidableEq R] (B : Backend P R)
    (f : RatMap P R) (deg0 : Nat → Int) : List Int :=
  let L := (List.range (f.source.dimension B).toNat).map deg0
  (L ++ [f.source.degree B]).reverse

/-- Oracles used by `inverse()`: the Macaulay2 bridge computing the
candidate inverse, the point sampler, and the direct image of a point
under a map (`self(p)`). -/
structure InvOracle (P R : Type) where
  bridge : RatMapCore P R → Except Err (RatMapCore P R)
  point : Variety P R → Variety P R
  app : RatMapCore P R → Variety P R → Variety P R

/-- `inverse(check)`: returns the cached inverse if present; resolves
`_is_birational` to `False` when it is unknown and the source and target
dimensions differ; raises when birationality or dominance is resolved to
`False`; otherwise delegates to the Macaulay2 bridge, validates by
round-tripping sampled points in both directions when `check` holds, and
then records the two maps as each other's inverse.  The result is the pair
`(g, self)` of the returned inverse and the (mutated) original map. -/
def RatMap.inverse [DecidableEq P] [DecidableEq R] (B : Backend P R)
    (O : InvOracle P R) (f : RatMap P R) (check : Bool) :
    Except Err (RatMap P R × RatMap P R) :=
  match f.invMap with
  | some c => .ok ({ toRatMapCore := c, invMap := some f.toRatMapCore }, f)
  | none =>
    let f1 : RatMap P R :=
      if f.isBir = none ∧ f.source.dimension B ≠ f.target.dimension B then
        { f with isBir := some false }
      else f
    if f1.isBir = some false ∨ f1.isDom = some false then
      .error .notBirational
    else
      match O.bridge f1.toRatMapCore with
      | .error _ => .error .bridgeError
      | .ok gc =>
        if ¬ (gc.source = f1.target ∧ gc.target = f1.source) then
          .error .assertFailed
        else if check then
          let p := O.point f1.source
          if (O.app gc (O.app f1.toRatMapCore p)).eqV B p = false then
            .error .assertFailed
          else
            let q := O.point f1.target
            if (O.app f1.toRatMapCore (O.app gc q)).eqV B q = false then
              .error .assertFailed
            else
              let f2 : RatMap P R := { f1 with isBir := some true }
              if gc.isBir ≠ some true then .error .assertFailed
              else
                let g2 : RatMap P R :=
                  { toRatMapCore := gc, invMap := some f2.toRatMapCore }
                let f3 : RatMap P R :=
                  { f2 with invMap := some g2.toRatMapCore }
                .ok (g2, f3)
        else .ok ({ toRatMapCore := gc, invMap := none }, f1)

/-- The data of one candidate curve produced inside
`Hodge_special_fourfold.congruence`: a line of the decomposed cone of
lines pulled back to the ambient fivefold.  `dim`/`deg` are the curve's
dimension and degree, `interDim`/`interDeg` those of its intersection
with the surface, and `containsP` records whether the sampled point lies
on the curve (the `assert(p.is_subset(W[0]))` of the source). -/
structure CurveData where
  dim : Int
  deg : Int
  interDim : Int
  interDeg : Int
  containsP : Bool
  deriving DecidableEq

/-- Python set intersection on lists of integers (`set(a).intersection(b)`). -/
def setInter (a b : List Int) : List Int :=
  a.dedup.filter fun x => x ∈ b

/-- The inner closure `function_congruence(p, degree, verbose)` of
`Hodge_special_fourfold.congruence`, translated from the source.  The
geometry of one trial — sampling a point, mapping it through the fivefold
map, computing and decomposing the cone of lines, and pulling each line
back — is supplied by the oracle `trials`, where `trials i` is the list of
candidate-curve data obtained from the `i`-th sampled point (empty when
the decomposition `D` is empty).  `degH` is the fourfold's
`_degree_as_hypersurface`.  The state argument `memo` is the fourfold
attribute `_possible_degrees_for_curves_of_congruence` (`none` when the
attribute is not set).  The first argument is recursion fuel for the
"rerun with another point" branch; the source recurses unboundedly there.
The result is the final memo state together with the found curve or the
raised exception.  Note the source raises at `len(W) == 0` *before* the
statement that would memoize the failure, so in that branch `memo` is
returned unchanged. -/
def function_congruence (degH : Int) (trials : Nat → List CurveData) :
    Nat → Nat → Option (List Int) → Option Int →
    Option (List Int) × Except Err CurveData
  | 0, _, memo, _ => (memo, .error .fuelExhausted)
  | fuel + 1, idx, memo, degOpt =>
    if degOpt = none ∧ memo = some [] then
      (memo, .error .congruenceFailedPrevious)
    else
      let curves := trials idx
      if curves = [] then (some [], .error .congruenceFailed)
      else
        let degs1 : List Int :=
          match degOpt with
          | some d => [d]
          | none => curves.map fun C => C.deg
        let degs : List Int :=
          match degOpt, memo with
          | none, some m => setInter degs1 m
          | _, _ => degs1
        if degOpt = none ∧ memo ≠ none ∧ degs = [] then
          (memo, .error .congruenceFailedPrevious)
        else
          let W : List CurveData := degs.flatMap fun d =>
            let E := curves.filter fun C =>
              C.dim = 1 ∧ C.deg = d ∧ C.interDim = 0 ∧
                C.interDeg = d * degH - 1
            if E.length = 1 then E else []
          if degOpt = none ∧ W.length > 1 then
            let newmemo : List Int :=
              match memo with
              | none => (W.map fun w => w.deg).dedup
              | some m => setInter (W.map fun w => w.deg) m
            if newmemo = [] then
              (some newmemo, .error .congruenceFailedPrevious)
            else function_congruence degH trials fuel (idx + 1)
                   (some newmemo) none
          else
            match W with
            | [] => (memo, .error .congruenceFailed)
            | w :: _ =>
              if w.containsP = false then (memo, .error .assertFailed)
              else (some (W.map fun x => x.deg).dedup, .ok w)

/-- The validation loop `congr.check(num_checks, ...)`: each round calls
the congruence function with the resolved degree on a fresh point; any
exception there is converted into "congruence check failed". -/
def congruence_check (degH : Int) (trials : Nat → List CurveData) (d : Int) :
    Nat → Nat → Option (List Int) → Option (List Int) × Except Err Unit
  | 0, _, memo => (memo, .ok ())
  | n + 1, idx, memo =>
    match function_congruence degH trials 1 idx memo (some d) with
    | (m, .error _) => (m, .error .congruenceCheckFailed)
    | (m, .ok _) => congruence_check degH trials d n (idx + 1) m

/-- `Hodge_special_fourfold.congruence(degree, num_checks, ...)`: run the
congruence function once on a sampled point, then validate the resolved
degree on `nchecks` further points.  The check rounds draw fresh points,
modelled by starting them at trial index `fuel + 1`, past any index the
first run can reach. -/
def congruence (degH : Int) (trials : Nat → List CurveData)
    (fuel nchecks : Nat) (memo : Option (List Int)) (degOpt : Option Int) :
    Option (List Int) × Except Err Int :=
  match function_congruence degH trials fuel 0 memo degOpt with
  | (m, .error e) => (m, .error e)
  | (m, .ok w) =>
    match congruence_check degH trials w.deg nchecks (fuel + 1) m with
    | (m2, .error e) => (m2, .error e)
    | (m2, .ok _) => (m2, .ok w.deg)

/-! ### A concrete executable backend

The nonzero ideals of ℤ are principal, so ideal arithmetic is gcd/lcm
arithmetic on a generator: the ideal generated by a list of integers is
generated by their gcd, membership is divisibility, ideal intersection is
the lcm, and saturation removes from a generator every prime factor it
shares with the saturating ideal.  This gives a small computable model of
the backend interface on which the generic definitions above can be run;
the coordinate-ring identifier doubles as the dimension of the ambient
projective space, and scheme dimension/degree are read off from the
generator in a way consistent with the clamping conventions of the code
(the unit ideal cuts out the empty scheme, whose unclamped dimension is
below -1; the zero ideal cuts out the whole space; a proper nonzero ideal
cuts out a hypersurface-like scheme). -/

/-- Gcd of the absolute values of a list of integers: a single generator
of the ideal the list generates in ℤ. -/
def gcdL (I : List ℤ) : ℕ :=
  I.foldr (fun a n => Nat.gcd a.natAbs n) 0

/-- One pass of saturation: divide `a` by `gcd(a, b)` until coprime, with
explicit fuel. -/
def satZAux : ℕ → ℕ → ℕ → ℕ
  | 0, a, _ => a
  | fuel + 1, a, b =>
    let d := Nat.gcd a b
    if d ≤ 1 then a else satZAux fuel (a / d) b

/-- Saturation `((a) : (b)^∞)` in ℤ: remove from `a` all prime factors it
shares with `b`.  `a` itself bounds the number of division steps. -/
def satZ (a b : ℕ) : ℕ := satZAux a a b

/-- Dimension of the projective scheme cut out by an ideal of the model:
the unit ideal cuts out the empty scheme (dimension below -1, as in Sage),
the zero ideal the whole space, and any proper nonzero ideal a
hypersurface. -/
def dimZ (r : ℕ) (I : List ℤ) : Int :=
  if gcdL I = 1 then -2 else if gcdL I = 0 then (r : Int) else (r : Int) - 1

/-- Degree of the scheme cut out by an ideal of the model. -/
def degZ (I : List ℤ) : Int :=
  if gcdL I = 0 then 1 else (gcdL I : Int)

/-- The concrete model backend on principal ideals of ℤ. -/
def ZB : Backend ℤ ℕ where
  mem := fun _ I g => decide ((gcdL I : ℤ) ∣ g)
  interIdeal := fun _ I J => [((Nat.lcm (gcdL I) (gcdL J) : ℕ) : ℤ)]
  satIdeal := fun _ I J => [((satZ (gcdL I) (gcdL J) : ℕ) : ℤ)]
  minbase := fun _ I => I
  irrelevantIdeal := fun _ => [2]
  one := fun _ => 1
  dimIdeal := dimZ
  ambientDim := fun r => r
  degIdeal := fun _ I => degZ I
  subst := fun a _ => a

theorem gcdL_dvd {I : List ℤ} {g : ℤ} (hg : g ∈ I) : (gcdL I : ℤ) ∣ g := by
  induction I with
  | nil => cases hg
  | cons a t ih =>
    rcases List.mem_cons.mp hg with h | h
    · have h1 : (gcdL (a :: t) : ℤ) ∣ (a.natAbs : ℤ) :=
        Int.natCast_dvd_natCast.mpr (Nat.gcd_dvd_left a.natAbs (gcdL t))
      rw [h]
      exact h1.trans (Int.natAbs_dvd.mpr dvd_rfl)
    · have h1 : (gcdL (a :: t) : ℤ) ∣ (gcdL t : ℤ) :=
        Int.natCast_dvd_natCast.mpr (Nat.gcd_dvd_right a.natAbs (gcdL t))
      exact h1.trans (ih h)

theorem gcdL_singleton (n : ℕ) : gcdL [(n : ℤ)] = n := by
  simp [gcdL]

/-- Membership in the model backend is divisibility by the gcd. -/
theorem ZB_mem_iff (r : ℕ) (I : List ℤ) (g : ℤ) :
    ZB.mem r I g = true ↔ (gcdL I : ℤ) ∣ g := by
  simp [ZB]

/-- Every listed generator belongs to the ideal it generates. -/
theorem ZB_memGen (r : ℕ) (I : List ℤ) (g : ℤ) (hg : g ∈ I) :
    ZB.mem r I g = true :=
  (ZB_mem_iff r I g).mpr (gcdL_dvd hg)

/-- Membership in the intersection of two ideals is membership in both. -/
theorem ZB_interMem (r : ℕ) (I J : List ℤ) (g : ℤ) :
    ZB.mem r (ZB.interIdeal r I J) g =
      (ZB.mem r I g && ZB.mem r J g) := by
  have hlcm : (Nat.lcm (gcdL I) (gcdL J) : ℤ) ∣ g ↔
      ((gcdL I : ℤ) ∣ g ∧ (gcdL J : ℤ) ∣ g) := by
    constructor
    · intro h
      exact ⟨(Int.natCast_dvd_natCast.mpr
                (Nat.dvd_lcm_left (gcdL I) (gcdL J))).trans h,
             (Int.natCast_dvd_natCast.mpr
                (Nat.dvd_lcm_right (gcdL I) (gcdL J))).trans h⟩
    · rintro ⟨h1, h2⟩
      have h1n : gcdL I ∣ g.natAbs := Int.natCast_dvd.mp h1
      have h2n : gcdL J ∣ g.natAbs := Int.natCast_dvd.mp h2
      have : Nat.lcm (gcdL I) (gcdL J) ∣ g.natAbs := Nat.lcm_dvd h1n h2n
      exact (Int.natCast_dvd.mpr this)
  have hmem : ZB.mem r (ZB.interIdeal r I J) g
      = decide ((Nat.lcm (gcdL I) (gcdL J) : ℤ) ∣ g) := by
    show decide ((gcdL [((Nat.lcm (gcdL I) (gcdL J) : ℕ) : ℤ)] : ℤ) ∣ g) = _
    rw [gcdL_singleton]
  rw [hmem]
  show _ = (decide ((gcdL I : ℤ) ∣ g) && decide ((gcdL J : ℤ) ∣ g))
  by_cases hI : (gcdL I : ℤ) ∣ g <;> by_cases hJ : (gcdL J : ℤ) ∣ g <;>
    simp [hI, hJ, hlcm]

theorem satZAux_dvd (fuel a b : ℕ) : satZAux fuel a b ∣ a := by
  induction fuel generalizing a with
  | zero => exact dvd_rfl
  | succ n ih =>
    show (if Nat.gcd a b ≤ 1 then a else satZAux n (a / Nat.gcd a b) b) ∣ a
    by_cases h : Nat.gcd a b ≤ 1
    · rw [if_pos h]
    · rw [if_neg h]
      have hdiv : a / Nat.gcd a b ∣ a :=
        ⟨Nat.gcd a b, (Nat.div_mul_cancel (Nat.gcd_dvd_left a b)).symm⟩
      exact (ih (a / Nat.gcd a b)).trans hdiv

/-- The saturation of an ideal contains the ideal. -/
theorem ZB_satSup (r : ℕ) (I J : List ℤ) (g : ℤ)
    (h : ZB.mem r I g = true) :
    ZB.mem r (ZB.minbase r (ZB.satIdeal r I J)) g = true := by
  rw [ZB_mem_iff] at h ⊢
  have hred : gcdL (ZB.minbase r (ZB.satIdeal r I J)) = satZ (gcdL I) (gcdL J) := by
    show gcdL [((satZ (gcdL I) (gcdL J) : ℕ) : ℤ)] = _
    exact gcdL_singleton _
  rw [hred]
  have h1 : (satZ (gcdL I) (gcdL J) : ℤ) ∣ (gcdL I : ℤ) :=
    Int.natCast_dvd_natCast.mpr (satZAux_dvd (gcdL I) (gcdL I) (gcdL J))
  exact h1.trans h

/-! ### Helper lemmas -/

instance exceptDecEq {ε α : Type} [DecidableEq ε] [DecidableEq α] :
    DecidableEq (Except ε α)
  | .error e, .error f =>
    if h : e = f then isTrue (by rw [h])
    else isFalse (by intro hh; cases hh; exact h rfl)
  | .error _, .ok _ => isFalse (by intro h; cases h)
  | .ok _, .error _ => isFalse (by intro h; cases h)
  | .ok a, .ok b =>
    if h : a = b then isTrue (by rw [h])
    else isFalse (by intro hh; cases hh; exact h rfl)

/-- `is_subset` holds as soon as every generator of the other variety
passes the membership test (same-ring case). -/
theorem is_subset_of_forall [DecidableEq P] [DecidableEq R] (B : Backend P R)
    (X Y : Variety P R) (hr : X.ring = Y.ring)
    (h : ∀ g ∈ Y.gens, B.mem X.ring X.gens g = true) :
    X.is_subset B Y = true := by
  unfold Variety.is_subset
  by_cases hXY : X = Y
  · rw [if_pos hXY]
  · rw [if_neg hXY, if_neg (by simp [hr])]
    exact List.all_eq_true.mpr h

/-- Characterization of `is_subset` for varieties in the same coordinate
ring, assuming the backend membership test accepts the generators of the
ideal they generate (needed because of the `self is Y` shortcut). -/
theorem is_subset_iff_mem [DecidableEq P] [DecidableEq R] (B : Backend P R)
    (X Y : Variety P R) (hr : X.ring = Y.ring)
    (hgen : ∀ g ∈ X.gens, B.mem X.ring X.gens g = true) :
    X.is_subset B Y = true ↔ ∀ g ∈ Y.gens, B.mem X.ring X.gens g = true := by
  constructor
  · intro h g hg
    unfold Variety.is_subset at h
    by_cases hXY : X = Y
    · exact hgen g (hXY ▸ hg)
    · rw [if_neg hXY, if_neg (by simp [hr])] at h
      exact List.all_eq_true.mp h g hg
  · exact is_subset_of_forall B X Y hr

/-! ### Claim C2 -/

/-- C2: for varieties in a common coordinate ring, `is_subset(Y)` returns
`True` exactly when every generator of `Y`'s defining ideal passes the
backend ideal-membership test against `X`'s defining ideal, and `X == Y`
returns `True` exactly when the two subset tests both hold (mutual ideal
containment, insensitive to how the ideals are presented by generators).
The hypothesis `hgenX` is the backend correctness fact that each listed
generator belongs to the ideal it generates, needed because `is_subset`
short-circuits on object identity. -/
theorem C2_is_subset_and_eq [DecidableEq P] [DecidableEq R] (B : Backend P R)
    (X Y : Variety P R) (hr : X.ring = Y.ring)
    (hgenX : ∀ g ∈ X.gens, B.mem X.ring X.gens g = true) :
    (X.is_subset B Y = true ↔ ∀ g ∈ Y.gens, B.mem X.ring X.gens g = true)
    ∧ (X.eqV B Y = true ↔ (X.is_subset B Y = true ∧ Y.is_subset B X = true)) :=
  ⟨is_subset_iff_mem B X Y hr hgenX, by simp [Variety.eqV]⟩

/-- Witness for C2 at a concrete instance of the model backend:
`X = V(2)`, `Y = V(4)` inside the ring labelled 1. -/
theorem C2_witness :
    (Variety.is_subset ZB ⟨1, [(2 : ℤ)]⟩ ⟨1, [(4 : ℤ)]⟩ = true ↔
      ∀ g ∈ [(4 : ℤ)], ZB.mem 1 [(2 : ℤ)] g = true)
    ∧ (Variety.eqV ZB ⟨1, [(2 : ℤ)]⟩ ⟨1, [(4 : ℤ)]⟩ = true ↔
      (Variety.is_subset ZB ⟨1, [(2 : ℤ)]⟩ ⟨1, [(4 : ℤ)]⟩ = true
       ∧ Variety.is_subset ZB ⟨1, [(4 : ℤ)]⟩ ⟨1, [(2 : ℤ)]⟩ = true)) :=
  C2_is_subset_and_eq ZB ⟨1, [(2 : ℤ)]⟩ ⟨1, [(4 : ℤ)]⟩ rfl (by decide)

/-! ### Claim C4 -/

/-- C4: with a common ambient space, `X.union(Y).is_subset(Z)` holds
exactly when `X.is_subset(Z)` and `Y.is_subset(Z)` both hold.  The
hypotheses record the backend facts the code relies on: generators belong
to the ideals they generate, minimal regeneration preserves ideal
membership, and membership in an ideal-theoretic intersection is
membership in both ideals. -/
theorem C4_union_subset_iff [DecidableEq P] [DecidableEq R] (B : Backend P R)
    (X Y Z : Variety P R)
    (hamb : (X.ambientV B).eqV B (Y.ambientV B) = true)
    (hrXY : X.ring = Y.ring) (hrXZ : X.ring = Z.ring)
    (hgenX : ∀ g ∈ X.gens, B.mem X.ring X.gens g = true)
    (hgenY : ∀ g ∈ Y.gens, B.mem Y.ring Y.gens g = true)
    (hgenU : ∀ g ∈ B.minbase X.ring (B.interIdeal X.ring X.gens Y.gens),
      B.mem X.ring (B.minbase X.ring (B.interIdeal X.ring X.gens Y.gens)) g = true)
    (hmb : ∀ g, B.mem X.ring (B.minbase X.ring (B.interIdeal X.ring X.gens Y.gens)) g
      = B.mem X.ring (B.interIdeal X.ring X.gens Y.gens) g)
    (hint : ∀ g, B.mem X.ring (B.interIdeal X.ring X.gens Y.gens) g
      = (B.mem X.ring X.gens g && B.mem Y.ring Y.gens g)) :
    ∃ U, X.unionV B Y = .ok U ∧
      (U.is_subset B Z = true ↔
        (X.is_subset B Z = true ∧ Y.is_subset B Z = true)) := by
  refine ⟨⟨X.ring, B.minbase X.ring (B.interIdeal X.ring X.gens Y.gens)⟩, ?_, ?_⟩
  · unfold Variety.unionV
    rw [if_neg (by simp [hamb])]
  · have hU : Variety.is_subset B
        ⟨X.ring, B.minbase X.ring (B.interIdeal X.ring X.gens Y.gens)⟩ Z = true
        ↔ ∀ g ∈ Z.gens,
            B.mem X.ring (B.minbase X.ring (B.interIdeal X.ring X.gens Y.gens)) g
              = true :=
      is_subset_iff_mem B
        ⟨X.ring, B.minbase X.ring (B.interIdeal X.ring X.gens Y.gens)⟩ Z
        hrXZ hgenU
    rw [hU, is_subset_iff_mem B X Z hrXZ hgenX,
        is_subset_iff_mem B Y Z (hrXY ▸ hrXZ) hgenY]
    constructor
    · intro h
      constructor
      · intro g hg
        have := h g hg
        rw [hmb g, hint g, Bool.and_eq_true] at this
        exact this.1
      · intro g hg
        have := h g hg
        rw [hmb g, hint g, Bool.and_eq_true] at this
        exact hrXY ▸ this.2
    · rintro ⟨h1, h2⟩ g hg
      rw [hmb g, hint g, Bool.and_eq_true]
      exact ⟨h1 g hg, by rw [← hrXY] at h2 ⊢; exact h2 g hg⟩

/-- Witness for C4 at a concrete instance of the model backend:
`X = V(2)`, `Y = V(3)`, `Z = V(6)`, where the union is `V(lcm(2,3)) = V(6)`. -/
theorem C4_witness :
    ∃ U, Variety.unionV ZB ⟨1, [(2 : ℤ)]⟩ ⟨1, [(3 : ℤ)]⟩ = .ok U ∧
      (U.is_subset ZB ⟨1, [(6 : ℤ)]⟩ = true ↔
        (Variety.is_subset ZB ⟨1, [(2 : ℤ)]⟩ ⟨1, [(6 : ℤ)]⟩ = true
         ∧ Variety.is_subset ZB ⟨1, [(3 : ℤ)]⟩ ⟨1, [(6 : ℤ)]⟩ = true)) :=
  C4_union_subset_iff ZB ⟨1, [(2 : ℤ)]⟩ ⟨1, [(3 : ℤ)]⟩ ⟨1, [(6 : ℤ)]⟩
    (by decide) rfl rfl (by decide) (by decide) (by decide)
    (fun g => rfl) (fun g => ZB_interMem 1 [(2 : ℤ)] [(3 : ℤ)] g)

/-! ### Claim C3 -/

/-- C3 counterexample: for a variety constructed from a non-saturated
defining ideal the claim fails.  In the model backend, take `X = V(4)`
with irrelevant ideal `(2)`: saturating `(4)` by `(2)` gives the unit
ideal, so `X.intersection(X.ambient())` is the variety cut out by `(1)`,
and comparing it with `X` by mutual ideal containment fails because the
generator `1` of the unit ideal does not lie in `(4)`.  (The same happens
in the source over a polynomial ring, e.g. for the ideal
`(x0^2, x0*x1, x1^2)` in `PP^1`, whose saturation by the irrelevant ideal
is the unit ideal.) -/
theorem C3_counterexample :
    Variety.intersectionV ZB ⟨1, [(4 : ℤ)]⟩
        (Variety.ambientV ZB ⟨1, [(4 : ℤ)]⟩)
      = Except.ok ⟨1, [(1 : ℤ)]⟩
    ∧ Variety.eqV ZB ⟨1, [(1 : ℤ)]⟩ ⟨1, [(4 : ℤ)]⟩ = false := by
  decide

/-- The ambient space of a variety lives in the same coordinate ring. -/
theorem ambientV_ring [DecidableEq P] [DecidableEq R] (B : Backend P R)
    (X : Variety P R) : (X.ambientV B).ring = X.ring := by
  unfold Variety.ambientV
  by_cases h : X.codimension B = 0
  · rw [if_pos h]
  · rw [if_neg h]

/-- Taking the ambient space twice is the same as taking it once: at
codimension 0 `ambient()` returns the variety itself, and otherwise both
branches of the second application produce the bare ambient space. -/
theorem ambientV_idem [DecidableEq P] [DecidableEq R] (B : Backend P R)
    (X : Variety P R) : (X.ambientV B).ambientV B = X.ambientV B := by
  by_cases h : X.codimension B = 0
  · have h1 : X.ambientV B = X := by
      unfold Variety.ambientV
      rw [if_pos h]
    rw [h1]
    exact h1
  · have h1 : X.ambientV B = ⟨X.ring, []⟩ := by
      unfold Variety.ambientV
      rw [if_neg h]
    rw [h1]
    unfold Variety.ambientV
    by_cases h2 : Variety.codimension B (⟨X.ring, []⟩ : Variety P R) = 0
    · rw [if_pos h2]
    · rw [if_neg h2]

/-- C3 amended: for *every* variety `X`, `X.union(X.ambient()) ==
X.ambient()` holds; and `X.intersection(X.ambient()) == X` holds whenever
the defining ideal of `X` is saturated with respect to the irrelevant
ideal — the antecedent of the first conjunct: every minimal generator of
the saturation of the ideal lies back in the ideal.  For a variety
constructed from a non-saturated defining ideal the intersection identity
fails in general (see the counterexample).  The remaining hypotheses are
facts of ideal arithmetic, true of the real backend, about the defining
ideal `J_amb` of `X.ambient()` (the zero ideal at positive codimension,
and `I` itself at codimension 0, where `ambient()` returns the variety):
`hisat` is `I ⊆ sat(I + J_amb)` (valid since `J_amb ⊆ I`), `hu1` is
`J_amb ⊆ I ∩ J_amb` (again since `J_amb ⊆ I`), and `hu2` is
`I ∩ J_amb ⊆ J_amb`. -/
theorem C3_amended [DecidableEq P] [DecidableEq R] (B : Backend P R)
    (X : Variety P R)
    (hisat : ∀ g ∈ X.gens,
      B.mem X.ring
        (B.minbase X.ring
          (B.satIdeal X.ring (X.gens ++ (X.ambientV B).gens)
            (B.irrelevantIdeal X.ring))) g = true)
    (hu1 : ∀ g ∈ (X.ambientV B).gens,
      B.mem X.ring
        (B.minbase X.ring (B.interIdeal X.ring X.gens (X.ambientV B).gens)) g
        = true)
    (hu2 : ∀ g ∈ B.minbase X.ring
        (B.interIdeal X.ring X.gens (X.ambientV B).gens),
      B.mem (X.ambientV B).ring (X.ambientV B).gens g = true) :
    ((∀ g ∈ B.minbase X.ring
        (B.satIdeal X.ring (X.gens ++ (X.ambientV B).gens)
          (B.irrelevantIdeal X.ring)),
       B.mem X.ring X.gens g = true) →
      ∃ Xi, X.intersectionV B (X.ambientV B) = .ok Xi ∧ Xi.eqV B X = true)
    ∧ (∃ Xu, X.unionV B (X.ambientV B) = .ok Xu
           ∧ Xu.eqV B (X.ambientV B) = true) := by
  have hguard : (X.ambientV B).eqV B ((X.ambientV B).ambientV B) = true := by
    rw [ambientV_idem]
    unfold Variety.eqV Variety.is_subset
    rw [if_pos rfl]
    rfl
  constructor
  · intro hsat
    refine ⟨⟨X.ring, B.minbase X.ring
        (B.satIdeal X.ring (X.gens ++ (X.ambientV B).gens)
          (B.irrelevantIdeal X.ring))⟩, ?_, ?_⟩
    · unfold Variety.intersectionV
      rw [if_neg (by simp [hguard])]
    · unfold Variety.eqV
      have h1 : Variety.is_subset B
          ⟨X.ring, B.minbase X.ring
            (B.satIdeal X.ring (X.gens ++ (X.ambientV B).gens)
              (B.irrelevantIdeal X.ring))⟩ X = true :=
        is_subset_of_forall B _ _ rfl hisat
      have h2 : Variety.is_subset B X
          ⟨X.ring, B.minbase X.ring
            (B.satIdeal X.ring (X.gens ++ (X.ambientV B).gens)
              (B.irrelevantIdeal X.ring))⟩ = true :=
        is_subset_of_forall B _ _ rfl hsat
      rw [h1, h2]
      rfl
  · refine ⟨⟨X.ring, B.minbase X.ring
        (B.interIdeal X.ring X.gens (X.ambientV B).gens)⟩, ?_, ?_⟩
    · unfold Variety.unionV
      rw [if_neg (by simp [hguard])]
    · unfold Variety.eqV
      have h1 : Variety.is_subset B
          ⟨X.ring, B.minbase X.ring
            (B.interIdeal X.ring X.gens (X.ambientV B).gens)⟩
          (X.ambientV B) = true :=
        is_subset_of_forall B _ _ (ambientV_ring B X).symm hu1
      have h2 : Variety.is_subset B (X.ambientV B)
          ⟨X.ring, B.minbase X.ring
            (B.interIdeal X.ring X.gens (X.ambientV B).gens)⟩ = true :=
        is_subset_of_forall B _ _ (ambientV_ring B X) hu2
      rw [h1, h2]
      rfl

/-- Witness for the amended C3 at a concrete instance of the model
backend: `X = V(3)` is saturated with respect to the irrelevant ideal
`(2)` because `gcd(3,2) = 1`; both identities are obtained concretely,
the saturatedness antecedent of the intersection conjunct included. -/
theorem C3_witness :
    (∃ Xi, Variety.intersectionV ZB ⟨1, [(3 : ℤ)]⟩
             (Variety.ambientV ZB ⟨1, [(3 : ℤ)]⟩) = .ok Xi
           ∧ Xi.eqV ZB ⟨1, [(3 : ℤ)]⟩ = true)
    ∧ (∃ Xu, Variety.unionV ZB ⟨1, [(3 : ℤ)]⟩
             (Variety.ambientV ZB ⟨1, [(3 : ℤ)]⟩) = .ok Xu
           ∧ Xu.eqV ZB (Variety.ambientV ZB ⟨1, [(3 : ℤ)]⟩) = true) :=
  ⟨(C3_amended ZB ⟨1, [(3 : ℤ)]⟩ (by decide) (by decide) (by decide)).1
      (by decide),
   (C3_amended ZB ⟨1, [(3 : ℤ)]⟩ (by decide) (by decide) (by decide)).2⟩

/-! ### Claim C1 -/

/-- C1 counterexample: the *last* entry of `projective_degrees()` is in
general not the source's degree.  Concretely, for a map whose source has
dimension 1 and degree 2, with the 0th projective degree of the map equal
to 7, the returned list is `[2, 7]`: the loop appends the 0th projective
degrees first and `source().degree()` last, and then *reverses* the list,
so the source degree ends up first, not last.  (This matches the doctest
of the source, where a map from `PP^6` returns `[1, 3, 9, 17, 21, 15, 5]`
with the source degree 1 first.) -/
theorem C1_counterexample :
    (RatMap.projective_degrees ZB
        (mkRatMap ZB ⟨2, [(2 : ℤ)]⟩ ⟨2, []⟩ []) (fun _ => 7)).getLast?
      ≠ some (Variety.degree ZB (mkRatMap ZB ⟨2, [(2 : ℤ)]⟩ ⟨2, []⟩ []).source)
    ∧ (RatMap.projective_degrees ZB
        (mkRatMap ZB ⟨2, [(2 : ℤ)]⟩ ⟨2, []⟩ []) (fun _ => 7)) = [2, 7]
    ∧ Variety.degree ZB (mkRatMap ZB ⟨2, [(2 : ℤ)]⟩ ⟨2, []⟩ []).source = 2 := by
  decide

/-- C1 amended: the *first* entry of the list returned by
`projective_degrees()` equals `source().degree()` (the loop appends the
source degree last and then reverses the list into increasing order by
codimension), for every map and every outcome of the probabilistic 0th
projective degrees. -/
theorem C1_projective_degrees_first [DecidableEq P] [DecidableEq R]
    (B : Backend P R) (f : RatMap P R) (deg0 : Nat → Int) :
    (f.projective_degrees B deg0).head? = some (f.source.degree B) := by
  unfold RatMap.projective_degrees
  simp

/-! ### Claim C5 -/

/-- C5 counterexample: a composed map can have its dominant flag resolved
to `True` at construction although the first operand's dominant flag is
unknown.  The constructor sets `_is_dominant = True` whenever the target
has negative dimension, and `compose` builds the composition through the
constructor; composing any map with unknown flags into a map whose target
is empty therefore yields `_is_dominant is True` without both operands
being resolved dominant. -/
theorem C5_counterexample :
    ((mkRatMap ZB ⟨1, []⟩ ⟨1, []⟩ []).compose ZB
        (mkRatMap ZB ⟨1, []⟩ ⟨1, [(1 : ℤ)]⟩ [])).isDom = some true
    ∧ (mkRatMap ZB ⟨1, []⟩ ⟨1, []⟩ []).isDom = none
    ∧ (mkRatMap ZB ⟨1, []⟩ ⟨1, [(1 : ℤ)]⟩ []).target.dimension ZB < 0 := by
  decide

/-- C5 amended: under `compose`, each of the flags isomorphism,
birational and morphism is resolved to `True` at construction exactly when
that flag is already `True` on both operands, and the dominant flag is
resolved to `True` exactly when both operands have it `True` *or* the
composed map's target has negative dimension (the constructor's special
case); every flag is otherwise left unknown (never `False`).  Composition
builds a new map, so the operands' flags are untouched. -/
theorem C5_compose_flags [DecidableEq P] [DecidableEq R] (B : Backend P R)
    (f g : RatMap P R) :
    ((f.compose B g).isIso = some true ↔
      (f.isIso = some true ∧ g.isIso = some true))
    ∧ ((f.compose B g).isBir = some true ↔
      (f.isBir = some true ∧ g.isBir = some true))
    ∧ ((f.compose B g).isMor = some true ↔
      (f.isMor = some true ∧ g.isMor = some true))
    ∧ ((f.compose B g).isDom = some true ↔
      ((f.isDom = some true ∧ g.isDom = some true)
        ∨ g.target.dimension B < 0))
    ∧ ((f.compose B g).isIso = some true ∨ (f.compose B g).isIso = none)
    ∧ ((f.compose B g).isBir = some true ∨ (f.compose B g).isBir = none)
    ∧ ((f.compose B g).isMor = some true ∨ (f.compose B g).isMor = none)
    ∧ ((f.compose B g).isDom = some true ∨ (f.compose B g).isDom = none) := by
  refine ⟨?_, ?_, ?_, ?_, ?_, ?_, ?_, ?_⟩ <;>
    simp only [RatMap.compose, mkRatMapCore] <;>
    split_ifs <;> simp_all

/-! ### Claim C10 -/

/-- C10: `dimension()` clamps the scheme dimension at -1 from below, so it
is never smaller than -1 and being negative is the same as being exactly
-1; the empty subscheme returned by `empty()` (cut out by the unit of the
coordinate ring, whose unclamped scheme dimension is below -1, hypothesis
`hone`) has dimension -1 and codimension equal to the ambient dimension
plus 1. -/
theorem C10_dimension_clamp [DecidableEq P] [DecidableEq R] (B : Backend P R)
    (X : Variety P R)
    (hone : B.dimIdeal X.ring [B.one X.ring] ≤ -1) :
    (-1 ≤ X.dimension B)
    ∧ ((X.emptyV B).dimension B = -1)
    ∧ ((X.emptyV B).codimension B = (B.ambientDim X.ring : Int) + 1)
    ∧ (X.dimension B < 0 ↔ X.dimension B = -1) := by
  have hdim : (X.emptyV B).dimension B = -1 := by
    unfold Variety.dimension Variety.emptyV
    exact max_eq_right hone
  refine ⟨le_max_right _ _, hdim, ?_, ?_⟩
  · unfold Variety.codimension
    rw [hdim]
    show (B.ambientDim X.ring : Int) - (-1) = _
    ring
  · have hge : -1 ≤ X.dimension B := le_max_right _ _
    omega

/-- Witness for C10 at a concrete instance of the model backend. -/
theorem C10_witness :
    (-1 ≤ Variety.dimension ZB ⟨1, [(4 : ℤ)]⟩)
    ∧ ((Variety.emptyV ZB ⟨1, [(4 : ℤ)]⟩).dimension ZB = -1)
    ∧ ((Variety.emptyV ZB ⟨1, [(4 : ℤ)]⟩).codimension ZB
        = ((ZB.ambientDim 1 : Nat) : Int) + 1)
    ∧ (Variety.dimension ZB ⟨1, [(4 : ℤ)]⟩ < 0 ↔
        Variety.dimension ZB ⟨1, [(4 : ℤ)]⟩ = -1) :=
  C10_dimension_clamp ZB ⟨1, [(4 : ℤ)]⟩ (by decide)

/-! ### Claim C8 -/

theorem findSome?_congr {α β : Type} (f g : α → Option β) (l : List α)
    (h : ∀ a ∈ l, f a = g a) : l.findSome? f = l.findSome? g := by
  induction l with
  | nil => rfl
  | cons a t ih =>
    rw [List.findSome?_cons, List.findSome?_cons, h a (List.mem_cons_self a t),
        ih fun x hx => h x (List.mem_cons_of_mem a hx)]

theorem findSome?_eq_none_iff {α β : Type} (f : α → Option β) (l : List α) :
    l.findSome? f = none ↔ ∀ a ∈ l, f a = none := by
  induction l with
  | nil => simp
  | cons a t ih =>
    rw [List.findSome?_cons]
    cases hfa : f a with
    | some b => simp [hfa]
    | none =>
      rw [ih]
      constructor
      · intro h x hx
        rcases List.mem_cons.mp hx with h1 | h1
        · rw [h1]; exact hfa
        · exact h x h1
      · intro h x hx
        exact h x (List.mem_cons_of_mem a hx)

/-- C8: on a variety of dimension 1 and codimension 1, `_raw_point` runs
exactly the bounded retry loop: it fails with the 10-attempt error
precisely when each of the first 10 random hyperplane sections yields no
rational point among its irreducible components, and its outcome depends
only on those first 10 attempts — the bound is a fixed attempt count, not
a time bound. -/
theorem C8_raw_point_bounded [DecidableEq P] [DecidableEq R] (B : Backend P R)
    (X : Variety P R) (bigdim highcodim : Except Err (Variety P R))
    (attempts : Nat → Option (Variety P R))
    (hd : X.dimension B = 1) (hc : X.codimension B = 1) :
    ((∀ i < 10, attempts i = none) →
      X.raw_point B bigdim highcodim attempts = .error .rawPointMaxAttempts)
    ∧ (X.raw_point B bigdim highcodim attempts = .error .rawPointMaxAttempts →
      ∀ i < 10, attempts i = none)
    ∧ (∀ attempts2 : Nat → Option (Variety P R),
      (∀ i < 10, attempts2 i = attempts i) →
      X.raw_point B bigdim highcodim attempts2
        = X.raw_point B bigdim highcodim attempts) := by
  have hbranch : ∀ att : Nat → Option (Variety P R),
      X.raw_point B bigdim highcodim att
        = match (List.range 10).findSome? att with
          | some p => .ok p
          | none => .error .rawPointMaxAttempts := by
    intro att
    unfold Variety.raw_point
    rw [hd, hc]
    rfl
  refine ⟨?_, ?_, ?_⟩
  · intro h
    rw [hbranch,
        (findSome?_eq_none_iff attempts (List.range 10)).mpr
          fun i hi => h i (List.mem_range.mp hi)]
  · intro h i hi
    rw [hbranch] at h
    cases hfs : (List.range 10).findSome? attempts with
    | some p => rw [hfs] at h; cases h
    | none =>
      exact (findSome?_eq_none_iff attempts (List.range 10)).mp hfs i
        (List.mem_range.mpr hi)
  · intro attempts2 h
    rw [hbranch, hbranch,
        findSome?_congr attempts2 attempts (List.range 10)
          fun i hi => h i (List.mem_range.mp hi)]

/-- Witness for C8 at a concrete instance of the model backend: a
dimension-1, codimension-1 variety on which every attempt fails. -/
theorem C8_witness :
    Variety.raw_point ZB ⟨2, [(2 : ℤ)]⟩ (.error .assertFailed)
      (.error .assertFailed) (fun _ => none)
      = .error .rawPointMaxAttempts :=
  (C8_raw_point_bounded ZB ⟨2, [(2 : ℤ)]⟩ (.error .assertFailed)
      (.error .assertFailed) (fun _ => none) (by decide) (by decide)).1
    (fun _ _ => rfl)

/-! ### Claim C9 -/

/-- C9: `random(d1,…,dk)` with a nonempty tuple of positive integers
raises when `k` exceeds the codimension (either the "no hypersurface
contains the ambient space" error at codimension 0 or the "too many
degrees" error), raises when the variety cut out by the drawn generators
does not have codimension exactly `k`, and otherwise returns a variety of
codimension `k` containing `X`.  The hypothesis `hcombo` is the backend
fact that every drawn random combination of elements of a homogeneous
component of the ideal lies in the ideal. -/
theorem C9_random_ci [DecidableEq P] [DecidableEq R] (B : Backend P R)
    (X : Variety P R) (args : List Int) (combo : Int → Nat → P)
    (hne : args ≠ []) (hpos : args.all (fun i => 0 < i) = true)
    (hcombo : ∀ d k, B.mem X.ring X.gens (combo d k) = true) :
    ((args.length : Int) > X.codimension B →
      (X.random B args combo = .error .noHypersurface
        ∨ X.random B args combo = .error .tooManyDegrees))
    ∧ (∀ Y, X.random B args combo = .ok Y →
      (Y.codimension B = (args.length : Int) ∧ X.is_subset B Y = true)) := by
  constructor
  · intro hgt
    unfold Variety.random
    rw [if_neg hne, if_neg (by simp [hpos])]
    by_cases h0 : X.codimension B = 0
    · rw [if_pos h0]
      exact Or.inl rfl
    · rw [if_neg h0, if_pos hgt]
      exact Or.inr rfl
  · intro Y hY
    unfold Variety.random at hY
    rw [if_neg hne, if_neg (by simp [hpos])] at hY
    by_cases h0 : X.codimension B = 0
    · rw [if_pos h0] at hY; cases hY
    · rw [if_neg h0] at hY
      by_cases hgt : (args.length : Int) > X.codimension B
      · rw [if_pos hgt] at hY; cases hY
      · rw [if_neg hgt] at hY
        by_cases hcod : Variety.codimension B
            ⟨X.ring, args.dedup.flatMap fun d =>
              (List.range (args.count d)).map fun k => combo d k⟩
            ≠ (args.length : Int)
        · rw [if_pos hcod] at hY; cases hY
        · rw [if_neg hcod] at hY
          have hYeq : Y = ⟨X.ring, args.dedup.flatMap fun d =>
              (List.range (args.count d)).map fun k => combo d k⟩ := by
            cases hY; rfl
          subst hYeq
          refine ⟨not_ne_iff.mp hcod, ?_⟩
          refine is_subset_of_forall B X _ rfl ?_
          intro g hg
          rcases List.mem_flatMap.mp hg with ⟨d, _, hgd⟩
          rcases List.mem_map.mp hgd with ⟨k, _, hk⟩
          rw [← hk]
          exact hcombo d k

/-- Witness for C9 at a concrete instance of the model backend:
`X = V(4)` of codimension 1, one degree requested, with the drawn
combination `8 ∈ (4)` cutting out a codimension-1 variety. -/
theorem C9_witness :
    ((([(1 : Int)].length : Nat) : Int)
        > Variety.codimension ZB ⟨1, [(4 : ℤ)]⟩ →
      (Variety.random ZB ⟨1, [(4 : ℤ)]⟩ [(1 : Int)] (fun _ _ => (8 : ℤ))
          = .error .noHypersurface
        ∨ Variety.random ZB ⟨1, [(4 : ℤ)]⟩ [(1 : Int)] (fun _ _ => (8 : ℤ))
          = .error .tooManyDegrees))
    ∧ (∀ Y, Variety.random ZB ⟨1, [(4 : ℤ)]⟩ [(1 : Int)]
          (fun _ _ => (8 : ℤ)) = .ok Y →
      (Y.codimension ZB = (([(1 : Int)].length : Nat) : Int)
        ∧ Variety.is_subset ZB ⟨1, [(4 : ℤ)]⟩ Y = true)) :=
  C9_random_ci ZB ⟨1, [(4 : ℤ)]⟩ [(1 : Int)] (fun _ _ => (8 : ℤ))
    (by decide) (by decide)
    (fun _ _ => by show ZB.mem 1 [(4 : ℤ)] (8 : ℤ) = true; decide)

/-! ### Claim C6 -/

/-- C6: with no cached inverse, `inverse()` raises "the rational map is
not birational" whenever the birationality flag is unknown but the source
and target dimensions differ (the code first resolves the flag to
`False`), or birationality or dominance was previously resolved to
`False`; and whenever `inverse()` succeeds with checking enabled, the
round-trip identities `g(f(p)) == p` and `f(g(q)) == q` hold for the
points sampled on the source and on the target, the original map's
birationality is resolved to `True`, and the two maps are recorded as
each other's inverse on both objects. -/
theorem C6_inverse [DecidableEq P] [DecidableEq R] (B : Backend P R)
    (O : InvOracle P R) (f : RatMap P R) (check : Bool)
    (hnc : f.invMap = none) :
    (((f.isBir = none ∧ f.source.dimension B ≠ f.target.dimension B)
        ∨ f.isBir = some false ∨ f.isDom = some false) →
      f.inverse B O check = .error .notBirational)
    ∧ (∀ g fp, f.inverse B O true = .ok (g, fp) →
      ((O.app g.toRatMapCore (O.app f.toRatMapCore (O.point f.source))).eqV B
          (O.point f.source) = true
        ∧ (O.app f.toRatMapCore (O.app g.toRatMapCore (O.point f.target))).eqV B
          (O.point f.target) = true
        ∧ fp.isBir = some true
        ∧ fp.invMap = some g.toRatMapCore
        ∧ g.invMap = some { f.toRatMapCore with isBir := some true })) := by
  constructor
  · intro h
    simp only [RatMap.inverse, hnc]
    by_cases h1 : f.isBir = none ∧ f.source.dimension B ≠ f.target.dimension B
    · rw [if_pos h1]
      simp
    · rw [if_neg h1]
      have h2 : f.isBir = some false ∨ f.isDom = some false := by
        rcases h with h | h | h
        · exact absurd h h1
        · exact Or.inl h
        · exact Or.inr h
      rw [if_pos h2]
  · intro g fp hok
    simp only [RatMap.inverse, hnc] at hok
    by_cases h1 : f.isBir = none ∧ f.source.dimension B ≠ f.target.dimension B
    · rw [if_pos h1] at hok
      simp at hok
    · rw [if_neg h1] at hok
      by_cases h2 : f.isBir = some false ∨ f.isDom = some false
      · rw [if_pos h2] at hok
        exact Except.noConfusion hok
      · rw [if_neg h2] at hok
        cases hbr : O.bridge f.toRatMapCore with
        | error e =>
          rw [hbr] at hok
          dsimp only at hok
          exact Except.noConfusion hok
        | ok gc =>
          rw [hbr] at hok
          dsimp only at hok
          by_cases h3 : gc.source = f.target ∧ gc.target = f.source
          · rw [if_neg (not_not_intro h3), if_pos trivial] at hok
            by_cases h4 : (O.app gc (O.app f.toRatMapCore
                (O.point f.source))).eqV B (O.point f.source) = false
            · rw [if_pos h4] at hok
              exact Except.noConfusion hok
            · rw [if_neg h4] at hok
              by_cases h5 : (O.app f.toRatMapCore (O.app gc
                  (O.point f.target))).eqV B (O.point f.target) = false
              · rw [if_pos h5] at hok
                exact Except.noConfusion hok
              · rw [if_neg h5] at hok
                by_cases h6 : gc.isBir ≠ some true
                · rw [if_pos h6] at hok
                  exact Except.noConfusion hok
                · rw [if_neg h6] at hok
                  injection hok with hpair
                  injection hpair with hg hfp
                  constructor
                  · rw [← hg]
                    exact eq_true_of_ne_false h4
                  refine ⟨?_, ?_, ?_, ?_⟩
                  · rw [← hg]
                    exact eq_true_of_ne_false h5
                  · rw [← hfp]
                  · rw [← hfp, ← hg]
                  · rw [← hg]
          · rw [if_pos h3] at hok
            exact Except.noConfusion hok

/-- A concrete Macaulay2-bridge/point-sampling oracle for the model
backend: the bridge swaps source and target and resolves birationality,
point sampling returns the variety itself, and direct images are
identities. -/
def ZO : InvOracle ℤ ℕ where
  bridge := fun c => .ok { c with
    source := c.target, target := c.source, isBir := some true }
  point := fun X => X
  app := fun _ v => v

/-- Witness for C6: a map whose dominance flag was resolved to `False`
raises, via the theorem applied at a concrete map and oracle. -/
theorem C6_witness :
    RatMap.inverse ZB ZO
      ⟨⟨⟨1, []⟩, ⟨1, []⟩, [], none, none, some false, none⟩, none⟩ true
      = .error .notBirational :=
  (C6_inverse ZB ZO
      ⟨⟨⟨1, []⟩, ⟨1, []⟩, [], none, none, some false, none⟩, none⟩ true
      rfl).1 (Or.inr (Or.inr rfl))

/-! ### Claim C7 -/

/-- C7: evaluation of the congruence routine at a failing input.  With a
trial oracle that always produces exactly one candidate curve failing the
filters (its dimension is 0, not 1), the run aborts at the `len(W) == 0`
branch.  The first conjunct shows that the failure is *not* memoized
there: the admissible-degree attribute remains unset (`none`), because in
the source the statement `self._possible_degrees_for_curves_of_congruence
= set()` of that branch is placed after the `raise` and is unreachable.
Consequently a subsequent call with the resulting state repeats the full
computation and raises the plain "failed" error again (second conjunct)
instead of the distinct short-circuit error "(with previous runs)", which
is raised only when the attribute is set and empty (third conjunct).  The
fourth and fifth conjuncts show the contrasting branch that does memoize:
an empty cone decomposition records the empty set before raising, and
after it every later call short-circuits immediately. -/
theorem C7_congruence_memo_bug :
    (congruence 3 (fun _ => [⟨0, 1, 0, 0, true⟩]) 5 0 none none
      = (none, .error .congruenceFailed))
    ∧ (congruence 3 (fun _ => [⟨0, 1, 0, 0, true⟩]) 5 0
        (congruence 3 (fun _ => [⟨0, 1, 0, 0, true⟩]) 5 0 none none).1 none
      = (none, .error .congruenceFailed))
    ∧ (congruence 3 (fun _ => [⟨0, 1, 0, 0, true⟩]) 5 0 (some []) none
      = (some [], .error .congruenceFailedPrevious))
    ∧ (congruence 3 (fun _ => []) 5 0 none none
      = (some [], .error .congruenceFailed))
    ∧ (congruence 3 (fun _ => [])  5 0
        (congruence 3 (fun _ => []) 5 0 none none).1 none
      = (some [], .error .congruenceFailedPrevious)) := by
  decide

end SFF
